import Mathlib

/-!
Verification development for the `agentecs-viz` observability server.

The Python sources are shallowly embedded: pydantic value models become Lean
structures, dictionaries become association lists with first-match lookup,
stateful objects become explicit state records with pure transition functions,
and Python floats are modelled as rationals.  Component data payloads (which
the core never interprets) are an opaque type parameter `α` with decidable
equality.

The delta engine (`diff` / `apply`) and the checkpoint+delta variant of
`InMemoryHistoryStore` that `sources/mock.py` instantiates are not present
under `src` (only their data models, their callers and the specification
describe them); those definitions are modelled from the spec and are marked
as such in their doc comments.  Everything else is translated from the
repository sources (`snapshot.py`, `history.py`, `sources/_base.py`,
`sources/mock.py`).
-/

set_option linter.unusedSectionVars false

namespace AgentEcsViz

/-- Metadata values appearing in `WorldSnapshot.metadata` dictionaries
(e.g. `{"source": "mock", "paused": False}` built by
`MockWorldSource._build_snapshot`). -/
inductive MetaVal where
  | str (s : String)
  | bool (b : Bool)
  | num (q : ℚ)
deriving DecidableEq, Repr

/-- `ComponentSnapshot` from `snapshot.py`: `type_name` (fully qualified),
`type_short` (display label and diff key) and an opaque `data` payload. -/
structure ComponentSnapshot (α : Type) where
  type_name : String
  type_short : String
  data : α
deriving DecidableEq, Repr

/-- `EntitySnapshot` from `snapshot.py`: an entity id and its components
(keyed by `type_short`, at most one per key in well-formed snapshots). -/
structure EntitySnapshot (α : Type) where
  id : Nat
  components : List (ComponentSnapshot α)
deriving DecidableEq, Repr

/-- `WorldSnapshot` from `snapshot.py`. Python's float `timestamp` is
modelled as a rational. -/
structure WorldSnapshot (α : Type) where
  tick : Nat
  timestamp : ℚ
  entity_count : Nat
  entities : List (EntitySnapshot α)
  metadata : List (String × MetaVal)
deriving DecidableEq, Repr

/-- `ComponentDiff` from `snapshot.py`: `(old=none, new=X)` means added,
`(old=X, new=none)` removed, `(old=X, new=Y)` modified. -/
structure ComponentDiff (α : Type) where
  component_type : String
  old_value : Option α
  new_value : Option α
deriving DecidableEq, Repr

/-- `TickDelta` from `snapshot.py`; `modified` is the mapping from entity id
to the ordered list of component diffs. -/
structure TickDelta (α : Type) where
  tick : Nat
  timestamp : ℚ
  spawned : List (EntitySnapshot α)
  destroyed : List Nat
  modified : List (Nat × List (ComponentDiff α))
deriving DecidableEq, Repr

variable {α : Type} [DecidableEq α]

/-- Dictionary-style lookup of a component by its `type_short` key. -/
def lookupComp (cs : List (ComponentSnapshot α)) (k : String) :
    Option (ComponentSnapshot α) :=
  cs.find? (fun c => c.type_short == k)

/-- The data payload stored under key `k`, if any. -/
def lookupData (cs : List (ComponentSnapshot α)) (k : String) : Option α :=
  (lookupComp cs k).map (·.data)

/-- Dictionary-style lookup of an entity by id. -/
def lookupEntity (es : List (EntitySnapshot α)) (i : Nat) :
    Option (EntitySnapshot α) :=
  es.find? (fun e => e.id == i)

/-- Code-point comparison of char lists: Python's string ordering. -/
def charListLe : List Char → List Char → Bool
  | [], _ => true
  | _ :: _, [] => false
  | x :: xs, y :: ys =>
    if x.val < y.val then true
    else if y.val < x.val then false
    else charListLe xs ys

/-- `a ≤ b` in code-point lexicographic order, as Python compares strings. -/
def strLe (a b : String) : Bool := charListLe a.data b.data

/-- Sorted insertion used by `sortKeys`. -/
def insertKey (x : String) : List String → List String
  | [] => [x]
  | y :: ys => if strLe x y then x :: y :: ys else y :: insertKey x ys

/-- Insertion sort by code-point order: models Python `sorted` over the
`type_short` key strings. -/
def sortKeys : List String → List String
  | [] => []
  | x :: xs => insertKey x (sortKeys xs)

/-- The single-key case of the per-entity diff: emit exactly one diff iff
the data payloads under key `k` differ (added / removed / modified); equal
payloads and absent-on-both-sides keys emit nothing. -/
def diffAtKey (old new : EntitySnapshot α) (k : String) : Option (ComponentDiff α) :=
  match lookupData old.components k, lookupData new.components k with
  | none, none => none
  | none, some v => some ⟨k, none, some v⟩
  | some v, none => some ⟨k, some v, none⟩
  | some v, some v' => if v = v' then none else some ⟨k, some v, some v'⟩

/-- Modelled from the spec: the per-entity half of the delta engine's
`diff` (§4.B), which is absent from `src` (only the `ComponentDiff` model
and the spec describe it).  Union the `type_short` keys of both sides,
sorted lexicographically, and apply `diffAtKey` to each key. -/
def entityDiff (old new : EntitySnapshot α) : List (ComponentDiff α) :=
  (sortKeys ((old.components.map (·.type_short) ++
    new.components.map (·.type_short)).dedup)).filterMap (diffAtKey old new)

/-- The `modified` entry contributed by old entity `e`: its per-entity diff
against the same-id entity of `new`, omitted when empty or when the id is
not present in `new`. -/
def modifiedEntry (new : WorldSnapshot α) (e : EntitySnapshot α) :
    Option (Nat × List (ComponentDiff α)) :=
  match lookupEntity new.entities e.id with
  | none => none
  | some e2 =>
    let ds := entityDiff e e2
    if ds.isEmpty then none else some (e.id, ds)

/-- Modelled from the spec: the delta engine's `diff(old, new) → delta`
(§4.B), absent from `src`.  `destroyed` = old ids minus new ids in old's
order; `spawned` = entities of `new` whose id is not in `old`, in new's
order; `modified` holds the per-entity diffs for common ids, empty diff
lists omitted.  The delta carries the successor's tick and timestamp. -/
def diff (old new : WorldSnapshot α) : TickDelta α :=
  { tick := new.tick
    timestamp := new.timestamp
    spawned := new.entities.filter (fun e => (lookupEntity old.entities e.id).isNone)
    destroyed :=
      ((old.entities.filter (fun e => (lookupEntity new.entities e.id).isNone)).map (·.id))
    modified := old.entities.filterMap (modifiedEntry new) }

/-- One component diff applied to a component list: add when `old = none`,
remove when `new = none`, replace the payload when both are present.  An
added component's `type_name` is fabricated from the short key (the diff
model in `snapshot.py` does not carry a resolved name). -/
def applyComponentDiff (cs : List (ComponentSnapshot α)) (d : ComponentDiff α) :
    List (ComponentSnapshot α) :=
  match d.old_value, d.new_value with
  | none, some v => cs ++ [⟨"unknown." ++ d.component_type, d.component_type, v⟩]
  | some _, none => cs.filter (fun c => c.type_short != d.component_type)
  | some _, some v =>
      cs.map (fun c => if c.type_short == d.component_type then { c with data := v } else c)
  | none, none => cs

/-- Fold a per-entity diff list over a component list. -/
def applyDiffList (cs : List (ComponentSnapshot α)) (ds : List (ComponentDiff α)) :
    List (ComponentSnapshot α) :=
  ds.foldl applyComponentDiff cs

/-- Patch a surviving entity by the `modified` entry stored under its id,
if any. -/
def patchEntity (δ : TickDelta α) (e : EntitySnapshot α) : EntitySnapshot α :=
  match δ.modified.find? (fun p => p.1 == e.id) with
  | some p => { e with components := applyDiffList e.components p.2 }
  | none => e

/-- Modelled from the spec: the delta engine's `apply(snapshot, delta)`
(§4.B), absent from `src`.  Remove `destroyed` ids, patch each surviving
entity per its `modified` entry (modifications of a destroyed or unknown
entity are skipped silently), then append the `spawned` entities.  The
result carries tick and timestamp from the delta and inherits the base
snapshot's metadata. -/
def apply (s : WorldSnapshot α) (δ : TickDelta α) : WorldSnapshot α :=
  let kept := s.entities.filter (fun e => ! δ.destroyed.contains e.id)
  let entities := kept.map (patchEntity δ) ++ δ.spawned
  { tick := δ.tick
    timestamp := δ.timestamp
    entity_count := entities.length
    entities := entities
    metadata := s.metadata }

/-- The data payload of component `k` of entity `i`, the observable the
round-trip invariant compares. -/
def compDataAt (s : WorldSnapshot α) (i : Nat) (k : String) : Option α :=
  (lookupEntity s.entities i).bind (fun e => lookupData e.components k)

-- Scenario S1 of the spec: a single modified component round-trips.
example :
    let S : WorldSnapshot Nat :=
      { tick := 0, timestamp := 0, entity_count := 1,
        entities := [⟨1, [⟨"mock.Position", "Position", 0⟩]⟩], metadata := [] }
    let S' : WorldSnapshot Nat :=
      { tick := 1, timestamp := 0, entity_count := 1,
        entities := [⟨1, [⟨"mock.Position", "Position", 5⟩]⟩], metadata := [] }
    compDataAt (apply S (diff S S')) 1 "Position" = some 5 := by decide

-- Scenario S2 of the spec: spawn and destroy round-trip.
example :
    let S : WorldSnapshot Nat :=
      { tick := 0, timestamp := 0, entity_count := 2,
        entities := [⟨1, []⟩, ⟨2, []⟩], metadata := [] }
    let S' : WorldSnapshot Nat :=
      { tick := 1, timestamp := 0, entity_count := 2,
        entities := [⟨1, []⟩, ⟨3, []⟩], metadata := [] }
    (diff S S').destroyed = [2] ∧
    (diff S S').spawned = [⟨3, []⟩] ∧
    (diff S S').modified = [] ∧
    (apply S (diff S S')).entities = [⟨1, []⟩, ⟨3, []⟩] := by decide

/-! ### Generic association-list lemmas -/

theorem find?_congr_mem {β : Type} {p q : β → Bool} :
    ∀ {l : List β}, (∀ a ∈ l, p a = q a) → l.find? p = l.find? q := by
  intro l
  induction l with
  | nil => intro _; rfl
  | cons b l ih =>
    intro h
    have hb := h b (by simp)
    by_cases hq : q b = true
    · rw [List.find?_cons_of_pos _ (hb ▸ hq), List.find?_cons_of_pos _ hq]
    · rw [List.find?_cons_of_neg _ (by simp [hb, hq]), List.find?_cons_of_neg _ hq]
      exact ih (fun a ha => h a (by simp [ha]))

theorem map_filterMap_key_sublist {β γ : Type} (g : γ → β) (f : β → Option γ)
    (hf : ∀ k d, f k = some d → g d = k) :
    ∀ (l : List β), ((l.filterMap f).map g).Sublist l := by
  intro l
  induction l with
  | nil => simp
  | cons b l ih =>
    rw [List.filterMap_cons]
    cases hfb : f b with
    | none => exact ih.trans (List.sublist_cons_self b l)
    | some d => rw [List.map_cons, hf b d hfb]; exact ih.cons₂ b

/-! ### Lookup lemmas for the snapshot model -/

theorem lookupComp_eq_none {cs : List (ComponentSnapshot α)} {k : String} :
    lookupComp cs k = none ↔ ∀ c ∈ cs, c.type_short ≠ k := by
  simp [lookupComp, List.find?_eq_none]

theorem lookupData_eq_none {cs : List (ComponentSnapshot α)} {k : String} :
    lookupData cs k = none ↔ lookupComp cs k = none := by
  simp [lookupData]

theorem lookupComp_mem_key {cs : List (ComponentSnapshot α)} {k : String}
    {c : ComponentSnapshot α} (h : lookupComp cs k = some c) :
    c ∈ cs ∧ c.type_short = k := by
  have hm := List.mem_of_find?_eq_some h
  have hk := List.find?_some h
  simp only [beq_iff_eq] at hk
  exact ⟨hm, hk⟩

theorem lookupEntity_eq_none {es : List (EntitySnapshot α)} {i : Nat} :
    lookupEntity es i = none ↔ ∀ e ∈ es, e.id ≠ i := by
  simp [lookupEntity, List.find?_eq_none]

theorem lookupEntity_mem_id {es : List (EntitySnapshot α)} {i : Nat}
    {e : EntitySnapshot α} (h : lookupEntity es i = some e) :
    e ∈ es ∧ e.id = i := by
  have hm := List.mem_of_find?_eq_some h
  have hk := List.find?_some h
  simp only [beq_iff_eq] at hk
  exact ⟨hm, hk⟩

/-! ### Key-sorting lemmas -/

theorem mem_insertKey {x a : String} :
    ∀ {l : List String}, a ∈ insertKey x l ↔ a = x ∨ a ∈ l := by
  intro l
  induction l with
  | nil => simp [insertKey]
  | cons y ys ih =>
    by_cases h : strLe x y
    · simp [insertKey, h]
    · simp only [insertKey, if_neg h, List.mem_cons, ih]
      tauto

theorem nodup_insertKey {x : String} :
    ∀ {l : List String}, x ∉ l → l.Nodup → (insertKey x l).Nodup := by
  intro l
  induction l with
  | nil => intro _ _; simp [insertKey]
  | cons y ys ih =>
    intro hx hnd
    rw [List.nodup_cons] at hnd
    by_cases h : strLe x y
    · rw [insertKey, if_pos h, List.nodup_cons, List.nodup_cons]
      exact ⟨by simpa using hx, hnd⟩
    · rw [insertKey, if_neg h, List.nodup_cons]
      constructor
      · rw [mem_insertKey]
        rintro (rfl | hy)
        · exact hx (by simp)
        · exact hnd.1 hy
      · exact ih (fun hm => hx (by simp [hm])) hnd.2

theorem mem_sortKeys {a : String} :
    ∀ {l : List String}, a ∈ sortKeys l ↔ a ∈ l := by
  intro l
  induction l with
  | nil => simp [sortKeys]
  | cons y ys ih => simp [sortKeys, mem_insertKey, ih]

theorem nodup_sortKeys : ∀ {l : List String}, l.Nodup → (sortKeys l).Nodup := by
  intro l
  induction l with
  | nil => intro _; simp [sortKeys]
  | cons y ys ih =>
    intro h
    rw [List.nodup_cons] at h
    exact nodup_insertKey (by rw [mem_sortKeys]; exact h.1) (ih h.2)

/-! ### Properties of the per-entity diff -/

theorem diffAtKey_some_spec {old new : EntitySnapshot α} {k : String}
    {d : ComponentDiff α} (h : diffAtKey old new k = some d) :
    d.component_type = k ∧
    lookupData old.components k = d.old_value ∧
    lookupData new.components k = d.new_value ∧
    (d.old_value ≠ none ∨ d.new_value ≠ none) := by
  unfold diffAtKey at h
  split at h
  · exact absurd h (by simp)
  · rename_i ho hn
    cases h
    exact ⟨rfl, ho, hn, by simp⟩
  · rename_i ho hn
    cases h
    exact ⟨rfl, ho, hn, by simp⟩
  · rename_i ho hn
    split at h
    · exact absurd h (by simp)
    · cases h
      exact ⟨rfl, ho, hn, by simp⟩

theorem diffAtKey_none_spec {old new : EntitySnapshot α} {k : String}
    (h : diffAtKey old new k = none) :
    lookupData old.components k = lookupData new.components k := by
  unfold diffAtKey at h
  split at h
  · rename_i ho hn
    rw [ho, hn]
  · exact absurd h (by simp)
  · exact absurd h (by simp)
  · rename_i ho hn
    rw [ho, hn]
    split at h
    · rename_i hvw
      rw [hvw]
    · exact absurd h (by simp)

theorem entityDiff_mem_spec {old new : EntitySnapshot α} {d : ComponentDiff α}
    (h : d ∈ entityDiff old new) :
    lookupData old.components d.component_type = d.old_value ∧
    lookupData new.components d.component_type = d.new_value ∧
    (d.old_value ≠ none ∨ d.new_value ≠ none) := by
  rw [entityDiff, List.mem_filterMap] at h
  obtain ⟨k, _, hfk⟩ := h
  obtain ⟨hk, ho, hn, hnn⟩ := diffAtKey_some_spec hfk
  subst hk
  exact ⟨ho, hn, hnn⟩

theorem entityDiff_keys_nodup (old new : EntitySnapshot α) :
    ((entityDiff old new).map (·.component_type)).Nodup := by
  have hsub := map_filterMap_key_sublist (·.component_type) (diffAtKey old new)
    (fun k d hkd => (diffAtKey_some_spec hkd).1)
    (sortKeys ((old.components.map (·.type_short) ++
      new.components.map (·.type_short)).dedup))
  exact hsub.nodup (nodup_sortKeys (List.nodup_dedup _))

theorem entityDiff_none_eq {old new : EntitySnapshot α} {k : String}
    (h : ∀ d ∈ entityDiff old new, d.component_type ≠ k) :
    lookupData old.components k = lookupData new.components k := by
  by_cases hk : k ∈ (old.components.map (·.type_short) ++
      new.components.map (·.type_short)).dedup
  · have hks : k ∈ sortKeys ((old.components.map (·.type_short) ++
        new.components.map (·.type_short)).dedup) := mem_sortKeys.2 hk
    rcases hd : diffAtKey old new k with _ | d
    · exact diffAtKey_none_spec hd
    · have hdm : d ∈ entityDiff old new := by
        rw [entityDiff, List.mem_filterMap]
        exact ⟨k, hks, hd⟩
      exact absurd (diffAtKey_some_spec hd).1 (h d hdm)
  · rw [List.mem_dedup, List.mem_append] at hk
    push_neg at hk
    have ho : lookupComp old.components k = none := lookupComp_eq_none.2 (by
      intro c hc he
      exact hk.1 (List.mem_map.2 ⟨c, hc, he⟩))
    have hn : lookupComp new.components k = none := lookupComp_eq_none.2 (by
      intro c hc he
      exact hk.2 (List.mem_map.2 ⟨c, hc, he⟩))
    rw [lookupData, lookupData, ho, hn]

/-! ### Applying component diffs -/

theorem lookupComp_applyComponentDiff_ne {cs : List (ComponentSnapshot α)}
    {d : ComponentDiff α} {k : String} (h : d.component_type ≠ k) :
    lookupComp (applyComponentDiff cs d) k = lookupComp cs k := by
  obtain ⟨ct, ov, nv⟩ := d
  simp only at h
  rcases ov with _ | v <;> rcases nv with _ | w
  · rfl
  · -- added: the appended component has key ct ≠ k
    rw [applyComponentDiff]
    rw [lookupComp, List.find?_append]
    have : List.find? (fun c => c.type_short == k)
        [(⟨"unknown." ++ ct, ct, w⟩ : ComponentSnapshot α)] = none := by
      simp [h]
    rw [this, Option.or_none]
    rfl
  · -- removed: components with other keys pass the filter
    rw [applyComponentDiff, lookupComp, List.find?_filter]
    apply find?_congr_mem
    intro c _
    by_cases hc : c.type_short = k
    · simp [hc, Ne.symm h]
    · simp [hc]
  · -- replaced: only ct-keyed components change, and only their data
    rw [applyComponentDiff, lookupComp, List.find?_map]
    have hpf : ((fun c : ComponentSnapshot α => c.type_short == k) ∘
        (fun c : ComponentSnapshot α =>
          if c.type_short == ct then { c with data := w } else c)) =
        (fun c : ComponentSnapshot α => c.type_short == k) := by
      funext c
      by_cases hc : c.type_short = ct <;> simp [hc]
    rw [hpf]
    rcases hf : List.find? (fun c => c.type_short == k) cs with _ | c
    · simp [lookupComp, hf]
    · have hck : c.type_short = k := by simpa using List.find?_some hf
      simp [lookupComp, hf, hck, Ne.symm h]

theorem lookupData_applyComponentDiff_add {cs : List (ComponentSnapshot α)}
    {ct : String} {w : α} (h : lookupComp cs ct = none) :
    lookupData (applyComponentDiff cs ⟨ct, none, some w⟩) ct = some w := by
  rw [applyComponentDiff, lookupData, lookupComp, List.find?_append]
  rw [lookupComp] at h
  rw [h]
  simp

theorem lookupData_applyComponentDiff_remove {cs : List (ComponentSnapshot α)}
    {ct : String} {v : α} :
    lookupData (applyComponentDiff cs ⟨ct, some v, none⟩) ct = none := by
  rw [applyComponentDiff, lookupData, lookupComp]
  rw [List.find?_eq_none.2]
  · rfl
  · intro c hc
    rw [List.mem_filter] at hc
    simpa using hc.2

theorem lookupData_applyComponentDiff_replace {cs : List (ComponentSnapshot α)}
    {ct : String} {v w : α} (h : (lookupComp cs ct).isSome) :
    lookupData (applyComponentDiff cs ⟨ct, some v, some w⟩) ct = some w := by
  rw [applyComponentDiff, lookupData, lookupComp, List.find?_map]
  have hpf : ((fun c : ComponentSnapshot α => c.type_short == ct) ∘
      (fun c : ComponentSnapshot α =>
        if c.type_short == ct then { c with data := w } else c)) =
      (fun c : ComponentSnapshot α => c.type_short == ct) := by
    funext c
    by_cases hc : c.type_short = ct <;> simp [hc]
  rw [hpf]
  rcases hf : List.find? (fun c => c.type_short == ct) cs with _ | c
  · rw [lookupComp, hf] at h; simp at h
  · have hck : c.type_short = ct := by simpa using List.find?_some hf
    simp [hf, hck]

theorem lookupData_applyDiffList {k : String} :
    ∀ (ds : List (ComponentDiff α)) (cs : List (ComponentSnapshot α)),
    ((ds.map (·.component_type)).Nodup) →
    (∀ d ∈ ds,
      (d.old_value = none → lookupComp cs d.component_type = none) ∧
      (d.old_value ≠ none → (lookupComp cs d.component_type).isSome) ∧
      (d.old_value ≠ none ∨ d.new_value ≠ none)) →
    lookupData (applyDiffList cs ds) k =
      (match ds.find? (fun d => d.component_type == k) with
       | some d => d.new_value
       | none => lookupData cs k) := by
  intro ds
  induction ds with
  | nil => intro cs _ _; rfl
  | cons d ds ih =>
    intro cs hnd hold
    rw [List.map_cons, List.nodup_cons] at hnd
    have hstep : applyDiffList cs (d :: ds) =
        applyDiffList (applyComponentDiff cs d) ds := rfl
    have hpres : ∀ d' ∈ ds,
        lookupComp (applyComponentDiff cs d) d'.component_type =
        lookupComp cs d'.component_type := by
      intro d' hd'
      apply lookupComp_applyComponentDiff_ne
      intro hkey
      exact hnd.1 (hkey ▸ List.mem_map.2 ⟨d', hd', rfl⟩)
    have hold' : ∀ d' ∈ ds,
        (d'.old_value = none →
          lookupComp (applyComponentDiff cs d) d'.component_type = none) ∧
        (d'.old_value ≠ none →
          (lookupComp (applyComponentDiff cs d) d'.component_type).isSome) ∧
        (d'.old_value ≠ none ∨ d'.new_value ≠ none) := by
      intro d' hd'
      rw [hpres d' hd']
      exact hold d' (by simp [hd'])
    rw [hstep, ih _ hnd.2 hold']
    by_cases hk : d.component_type = k
    · subst hk
      rw [List.find?_cons_of_pos _ (by simp)]
      have hnone : ds.find? (fun d' => d'.component_type == d.component_type) = none := by
        rw [List.find?_eq_none]
        intro d' hd'
        simp only [beq_iff_eq]
        intro hkey
        exact hnd.1 (hkey ▸ List.mem_map.2 ⟨d', hd', rfl⟩)
      rw [hnone]
      obtain ⟨hadd, hrepl, hnn⟩ := hold d (by simp)
      obtain ⟨ct, ov, nv⟩ := d
      simp only at hadd hrepl hnn ⊢
      rcases ov with _ | v <;> rcases nv with _ | w
      · simp at hnn
      · exact lookupData_applyComponentDiff_add (hadd rfl)
      · exact lookupData_applyComponentDiff_remove
      · exact lookupData_applyComponentDiff_replace (hrepl (by simp))
    · rw [List.find?_cons_of_neg _ (by simp [hk])]
      rcases hf : ds.find? (fun d' => d'.component_type == k) with _ | d'
      · rw [hf]
        simp only [lookupData, lookupComp_applyComponentDiff_ne hk]
      · rw [hf]

/-! ### Entity-level lemmas for `apply ∘ diff` -/

theorem patchEntity_id (δ : TickDelta α) (e : EntitySnapshot α) :
    (patchEntity δ e).id = e.id := by
  rw [patchEntity]
  split <;> rfl

theorem modifiedEntry_key {new : WorldSnapshot α} {e : EntitySnapshot α}
    {p : Nat × List (ComponentDiff α)} (h : modifiedEntry new e = some p) :
    p.1 = e.id := by
  rw [modifiedEntry] at h
  rcases hl : lookupEntity new.entities e.id with _ | e2 <;> rw [hl] at h
  · exact absurd h (by simp)
  · dsimp only at h
    split at h
    · exact absurd h (by simp)
    · cases h; rfl

theorem find?_filterMap_entries {β : Type} (F : EntitySnapshot α → Option (Nat × β))
    (hF : ∀ e p, F e = some p → p.1 = e.id) :
    ∀ (l : List (EntitySnapshot α)), (l.map (·.id)).Nodup → ∀ i : Nat,
    (l.filterMap F).find? (fun p => p.1 == i) = (lookupEntity l i).bind F := by
  intro l
  induction l with
  | nil => intro _ i; rfl
  | cons e l ih =>
    intro hnd i
    rw [List.map_cons, List.nodup_cons] at hnd
    by_cases hei : e.id = i
    · have hle : lookupEntity (e :: l) i = some e := by
        rw [lookupEntity, List.find?_cons_of_pos _ (by simp [hei])]
      rw [hle]
      cases hFe : F e with
      | some p =>
        rw [List.filterMap_cons, hFe,
          List.find?_cons_of_pos _ (by simp [hF e p hFe, hei])]
        simp [hFe]
      | none =>
        rw [List.filterMap_cons, hFe]
        have hnone : (l.filterMap F).find? (fun p => p.1 == i) = none := by
          rw [List.find?_eq_none]
          intro p hp
          rw [List.mem_filterMap] at hp
          obtain ⟨e2, he2, hFe2⟩ := hp
          have hpe : p.1 = e2.id := hF e2 p hFe2
          have hne : e2.id ≠ i := by
            intro hei2
            exact hnd.1 (hei ▸ hei2 ▸ List.mem_map.2 ⟨e2, he2, rfl⟩)
          simp [hpe, hne]
        rw [hnone]
        simp [hFe]
    · have hle : lookupEntity (e :: l) i = lookupEntity l i := by
        rw [lookupEntity, lookupEntity, List.find?_cons_of_neg _ (by simp [hei])]
      rw [hle, ← ih hnd.2 i]
      cases hFe : F e with
      | some p =>
        rw [List.filterMap_cons, hFe,
          List.find?_cons_of_neg _ (by simp [hF e p hFe, hei])]
      | none =>
        rw [List.filterMap_cons, hFe]

theorem lookupEntity_filter {p : EntitySnapshot α → Bool}
    {l : List (EntitySnapshot α)} {i : Nat}
    (h : ∀ e ∈ l, e.id = i → p e = true) :
    lookupEntity (l.filter p) i = lookupEntity l i := by
  rw [lookupEntity, lookupEntity, List.find?_filter]
  apply find?_congr_mem
  intro e he
  by_cases hei : e.id = i
  · simp [hei, h e he hei]
  · simp [hei]

theorem lookupEntity_filter_none {p : EntitySnapshot α → Bool}
    {l : List (EntitySnapshot α)} {i : Nat}
    (h : ∀ e ∈ l, e.id = i → p e = false) :
    lookupEntity (l.filter p) i = none := by
  rw [lookupEntity, List.find?_eq_none]
  intro e he
  obtain ⟨hel, hep⟩ := List.mem_filter.1 he
  simp only [beq_iff_eq]
  intro hei
  rw [h e hel hei] at hep
  exact Bool.false_ne_true hep

theorem lookupEntity_map {g : EntitySnapshot α → EntitySnapshot α}
    (hg : ∀ e, (g e).id = e.id) (l : List (EntitySnapshot α)) (i : Nat) :
    lookupEntity (l.map g) i = (lookupEntity l i).map g := by
  rw [lookupEntity, List.find?_map, lookupEntity]
  have hpf : ((fun e : EntitySnapshot α => e.id == i) ∘ g) =
      (fun e : EntitySnapshot α => e.id == i) := by
    funext e
    simp [hg e]
  rw [hpf]

theorem mem_destroyed_iff {S S' : WorldSnapshot α} {i : Nat} :
    i ∈ (diff S S').destroyed ↔
    (∃ e ∈ S.entities, e.id = i) ∧ lookupEntity S'.entities i = none := by
  constructor
  · intro h
    obtain ⟨e, hef, hid⟩ := List.mem_map.1 h
    obtain ⟨heS, hnone⟩ := List.mem_filter.1 hef
    rw [Option.isNone_iff_eq_none] at hnone
    exact ⟨⟨e, heS, hid⟩, hid ▸ hnone⟩
  · rintro ⟨⟨e, heS, hid⟩, hnone⟩
    refine List.mem_map.2 ⟨e, List.mem_filter.2 ⟨heS, ?_⟩, hid⟩
    rw [Option.isNone_iff_eq_none, hid]
    exact hnone

/-- Per-id characterization of `apply S (diff S S')`: every id resolves to
either nothing on both sides, or to entities with pointwise equal component
data payloads. -/
theorem roundtrip_char (S S' : WorldSnapshot α)
    (h1 : (S.entities.map (·.id)).Nodup) (i : Nat) :
    (lookupEntity (apply S (diff S S')).entities i = none ∧
      lookupEntity S'.entities i = none) ∨
    (∃ eR e2, lookupEntity (apply S (diff S S')).entities i = some eR ∧
      lookupEntity S'.entities i = some e2 ∧
      ∀ k, lookupData eR.components k = lookupData e2.components k) := by
  have hent : (apply S (diff S S')).entities =
      (S.entities.filter (fun e => ! (diff S S').destroyed.contains e.id)).map
        (patchEntity (diff S S')) ++ (diff S S').spawned := rfl
  have happ : lookupEntity (apply S (diff S S')).entities i =
      ((lookupEntity (S.entities.filter
          (fun e => ! (diff S S').destroyed.contains e.id)) i).map
        (patchEntity (diff S S'))).or (lookupEntity (diff S S').spawned i) := by
    rw [hent, lookupEntity, List.find?_append,
      ← lookupEntity, ← lookupEntity, lookupEntity_map (patchEntity_id _)]
  rcases hS' : lookupEntity S'.entities i with _ | e2
  · left
    refine ⟨?_, rfl⟩
    have hsp : lookupEntity (diff S S').spawned i = none := by
      rw [lookupEntity, List.find?_eq_none]
      intro e he
      simp only [beq_iff_eq]
      intro hei
      exact (lookupEntity_eq_none.1 hS') e (List.mem_filter.1 he).1 hei
    have hkept : lookupEntity (S.entities.filter
        (fun e => ! (diff S S').destroyed.contains e.id)) i = none := by
      apply lookupEntity_filter_none
      intro e he hei
      have hdest : i ∈ (diff S S').destroyed :=
        mem_destroyed_iff.2 ⟨⟨e, he, hei⟩, hS'⟩
      simp [hei, hdest]
    rw [happ, hkept, hsp]
    rfl
  · right
    rcases hS : lookupEntity S.entities i with _ | e
    · -- spawned entity: taken verbatim from S'
      refine ⟨e2, e2, ?_, rfl, fun k => rfl⟩
      have hkept : lookupEntity (S.entities.filter
          (fun e => ! (diff S S').destroyed.contains e.id)) i = none := by
        rw [lookupEntity, List.find?_eq_none]
        intro e he
        simp only [beq_iff_eq]
        intro hei
        exact (lookupEntity_eq_none.1 hS) e (List.mem_filter.1 he).1 hei
      have hsp : lookupEntity (diff S S').spawned i = lookupEntity S'.entities i := by
        apply lookupEntity_filter
        intro e he hei
        rw [hei, hS]
        rfl
      rw [happ, hkept, hsp, hS']
      rfl
    · -- common entity: patched in place
      have heid : e.id = i := (lookupEntity_mem_id hS).2
      have hnd : i ∉ (diff S S').destroyed := by
        rw [mem_destroyed_iff]
        rintro ⟨-, hnone⟩
        rw [hS'] at hnone
        cases hnone
      have hkept : lookupEntity (S.entities.filter
          (fun e => ! (diff S S').destroyed.contains e.id)) i =
          lookupEntity S.entities i := by
        apply lookupEntity_filter
        intro e1 he1 hei
        simp [hei, hnd]
      have hmod : (diff S S').modified.find? (fun p => p.1 == i) =
          (lookupEntity S.entities i).bind (modifiedEntry S') :=
        find?_filterMap_entries (modifiedEntry S')
          (fun e p h => modifiedEntry_key h) S.entities h1 i
      rw [hS, Option.some_bind, modifiedEntry, heid, hS'] at hmod
      have hmod2 : (diff S S').modified.find? (fun p => p.1 == i) =
          (if (entityDiff e e2).isEmpty then none
           else some (i, entityDiff e e2)) := hmod
      refine ⟨patchEntity (diff S S') e, e2, ?_, rfl, ?_⟩
      · rw [happ, hkept, hS]
        rfl
      · intro k
        by_cases hempty : (entityDiff e e2).isEmpty = true
        · rw [patchEntity, heid, hmod2, if_pos hempty]
          show lookupData e.components k = lookupData e2.components k
          have hnil : entityDiff e e2 = [] := List.isEmpty_iff.1 hempty
          exact entityDiff_none_eq (fun d hd => absurd (hnil ▸ hd) (by simp))
        · rw [patchEntity, heid, hmod2, if_neg hempty]
          show lookupData (applyDiffList e.components (entityDiff e e2)) k =
            lookupData e2.components k
          rw [lookupData_applyDiffList (entityDiff e e2) e.components
            (entityDiff_keys_nodup e e2) ?hold]
          case hold =>
            intro d hd
            obtain ⟨ho, hn, hnn⟩ := entityDiff_mem_spec hd
            refine ⟨?_, ?_, hnn⟩
            · intro hdo
              rw [hdo] at ho
              exact lookupData_eq_none.1 ho
            · intro hdo
              rcases hv : d.old_value with _ | v
              · exact absurd hv hdo
              · rw [hv] at ho
                rw [lookupData] at ho
                rcases hc : lookupComp e.components d.component_type with _ | c
                · rw [hc] at ho; exact absurd ho (by simp)
                · simp [hc]
          rcases hf : (entityDiff e e2).find? (fun d => d.component_type == k) with _ | d
          · rw [hf]
            exact entityDiff_none_eq (fun d hd hdk =>
              (by simpa [hdk] using List.find?_eq_none.1 hf d hd : False))
          · rw [hf]
            have hdm := List.mem_of_find?_eq_some hf
            have hdk : d.component_type = k := by simpa using List.find?_some hf
            obtain ⟨-, hn, -⟩ := entityDiff_mem_spec hdm
            rw [← hdk, hn]

/-- C1: for every pair of world snapshots (S, S′) — with the data-model
invariant that entity ids are unique within a snapshot — applying the delta
engine's diff of S and S′ to S (`apply S (diff S S′)`) yields a snapshot
whose entity set and per-entity component data equal those of S′, under
value equality of the data payloads. -/
theorem delta_roundtrip (S S2 : WorldSnapshot α)
    (h1 : (S.entities.map (·.id)).Nodup) :
    (∀ i : Nat, (lookupEntity (apply S (diff S S2)).entities i).isSome =
      (lookupEntity S2.entities i).isSome) ∧
    (∀ (i : Nat) (k : String),
      compDataAt (apply S (diff S S2)) i k = compDataAt S2 i k) := by
  constructor
  · intro i
    rcases roundtrip_char S S2 h1 i with ⟨hR, hN⟩ | ⟨eR, e2, hR, hN, -⟩ <;>
      rw [hR, hN] <;> rfl
  · intro i k
    rcases roundtrip_char S S2 h1 i with ⟨hR, hN⟩ | ⟨eR, e2, hR, hN, hdata⟩
    · rw [compDataAt, compDataAt, hR, hN]
    · rw [compDataAt, compDataAt, hR, hN, Option.some_bind, Option.some_bind]
      exact hdata k

/-- Witness for C1 at the spec's S1 scenario: entity 1's `Position` payload
changes from 0 to 5. -/
theorem delta_roundtrip_witness :
    let S : WorldSnapshot Nat :=
      { tick := 0, timestamp := 0, entity_count := 1,
        entities := [⟨1, [⟨"mock.Position", "Position", 0⟩]⟩], metadata := [] }
    let S2 : WorldSnapshot Nat :=
      { tick := 1, timestamp := 0, entity_count := 1,
        entities := [⟨1, [⟨"mock.Position", "Position", 5⟩]⟩], metadata := [] }
    (S.entities.map (·.id)).Nodup ∧
    (∀ (i : Nat) (k : String),
      compDataAt (apply S (diff S S2)) i k = compDataAt S2 i k) := by
  intro S S2
  exact ⟨by decide, (delta_roundtrip S S2 (by decide)).2⟩

/-! ### The src `InMemoryHistoryStore` (`history.py`) -/

/-- `TickRecord` from the external `agentecs.tracing` module as consumed by
`history.py`: tick number, wall-clock timestamp, snapshot payload and the
tick's event payloads (opaque). -/
structure TickRecord (α : Type) where
  tick : Nat
  timestamp : ℚ
  snapshot : WorldSnapshot α
  events : List α
deriving DecidableEq, Repr

/-- `InMemoryHistoryStore` from `history.py`: `max_ticks` plus an
insertion-ordered mapping (`collections.OrderedDict`) from tick to record,
modelled as an association list with unique keys. -/
structure InMemoryHistoryStore (α : Type) where
  max_ticks : Nat
  records : List (Nat × TickRecord α)
deriving DecidableEq, Repr

/-- `OrderedDict.__setitem__`: assigning an existing key replaces its value
in place (insertion order kept); a new key is appended at the end. -/
def odSet (rs : List (Nat × TickRecord α)) (k : Nat) (v : TickRecord α) :
    List (Nat × TickRecord α) :=
  if (rs.find? (fun p => p.1 == k)).isSome then
    rs.map (fun p => if p.1 == k then (k, v) else p)
  else rs ++ [(k, v)]

/-- The `while len(records) > max_ticks: popitem(last=False)` eviction loop
of `record_tick`: repeatedly drop the oldest (front) entry. -/
def evictOldest (maxTicks : Nat) :
    List (Nat × TickRecord α) → List (Nat × TickRecord α)
  | [] => []
  | p :: rs =>
    if maxTicks < (p :: rs).length then evictOldest maxTicks rs else p :: rs

/-- `InMemoryHistoryStore.record_tick`: store the record under its tick,
then evict oldest entries while over the limit. -/
def InMemoryHistoryStore.record_tick (st : InMemoryHistoryStore α)
    (r : TickRecord α) : InMemoryHistoryStore α :=
  { st with records := evictOldest st.max_ticks (odSet st.records r.tick r) }

/-- `InMemoryHistoryStore.get_tick`: `self._records.get(tick)`. -/
def InMemoryHistoryStore.get_tick (st : InMemoryHistoryStore α) (t : Nat) :
    Option (TickRecord α) :=
  (st.records.find? (fun p => p.1 == t)).map (·.2)

/-- `InMemoryHistoryStore.get_snapshot`: the record's snapshot, if any. -/
def InMemoryHistoryStore.get_snapshot (st : InMemoryHistoryStore α) (t : Nat) :
    Option (WorldSnapshot α) :=
  (st.get_tick t).map (·.snapshot)

/-- The sequence of currently retained tick keys, oldest first. -/
def InMemoryHistoryStore.retainedTicks (st : InMemoryHistoryStore α) : List Nat :=
  st.records.map (·.1)

/-- A freshly constructed store (`InMemoryHistoryStore(max_ticks=K)`). -/
def InMemoryHistoryStore.empty (α : Type) (maxTicks : Nat) :
    InMemoryHistoryStore α :=
  ⟨maxTicks, []⟩

theorem evictOldest_eq_drop (K : Nat) :
    ∀ l : List (Nat × TickRecord α), evictOldest K l = l.drop (l.length - K) := by
  intro l
  induction l with
  | nil => simp [evictOldest]
  | cons p rs ih =>
    rw [evictOldest]
    by_cases h : K < (p :: rs).length
    · rw [if_pos h, ih]
      have hlen : (p :: rs).length - K = (rs.length - K) + 1 := by
        simp only [List.length_cons] at h ⊢
        omega
      rw [hlen, List.drop_succ_cons]
    · rw [if_neg h]
      have hlen : (p :: rs).length - K = 0 := by
        simp only [List.length_cons] at h ⊢
        omega
      rw [hlen, List.drop_zero]

theorem odSet_fresh {rs : List (Nat × TickRecord α)} {k : Nat} {v : TickRecord α}
    (h : ∀ p ∈ rs, p.1 ≠ k) : odSet rs k v = rs ++ [(k, v)] := by
  have hc : ¬ ((rs.find? (fun p => p.1 == k)).isSome = true) := by
    rw [List.find?_isSome]
    rintro ⟨p, hp, hpk⟩
    exact h p hp (by simpa using hpk)
  rw [odSet, if_neg hc]

theorem record_tick_foldl_suffix (K : Nat) :
    ∀ (seq : List (TickRecord α)) (st : InMemoryHistoryStore α),
    st.max_ticks = K →
    st.records.length ≤ K →
    seq.Pairwise (fun a b => a.tick < b.tick) →
    (∀ p ∈ st.records, ∀ r ∈ seq, p.1 < r.tick) →
    (seq.foldl InMemoryHistoryStore.record_tick st).records =
      (st.records ++ seq.map (fun r => (r.tick, r))).drop
        (st.records.length + seq.length - K) := by
  intro seq
  induction seq with
  | nil =>
    intro st hmax hlen _ _
    rw [List.foldl_nil, List.map_nil, List.append_nil, List.length_nil]
    have h0 : st.records.length + 0 - K = 0 := by omega
    rw [h0, List.drop_zero]
  | cons r seq ih =>
    intro st hmax hlen hpw hlt
    rw [List.foldl_cons]
    have hfresh : ∀ p ∈ st.records, p.1 ≠ r.tick :=
      fun p hp => Nat.ne_of_lt (hlt p hp r (by simp))
    have hrec : (st.record_tick r).records =
        (st.records ++ [(r.tick, r)]).drop (st.records.length + 1 - K) := by
      rw [InMemoryHistoryStore.record_tick, odSet_fresh hfresh, hmax,
        evictOldest_eq_drop]
      congr 1
      simp
    have hmax2 : (st.record_tick r).max_ticks = K := hmax
    have hlen2 : (st.record_tick r).records.length ≤ K := by
      rw [hrec, List.length_drop]
      simp only [List.length_append, List.length_cons, List.length_nil]
      omega
    have hpw2 : seq.Pairwise (fun a b => a.tick < b.tick) :=
      (List.pairwise_cons.1 hpw).2
    have hlt2 : ∀ p ∈ (st.record_tick r).records, ∀ r2 ∈ seq, p.1 < r2.tick := by
      intro p hp r2 hr2
      rw [hrec] at hp
      have hp2 := List.mem_of_mem_drop hp
      rw [List.mem_append] at hp2
      rcases hp2 with hp2 | hp2
      · exact hlt p hp2 r2 (by simp [hr2])
      · have hpr : p = (r.tick, r) := by simpa using hp2
        rw [hpr]
        exact (List.pairwise_cons.1 hpw).1 r2 hr2
    rw [ih _ hmax2 hlen2 hpw2 hlt2, hrec]
    rw [← List.drop_append_of_le_length (by
      rw [List.length_append, List.length_cons, List.length_nil]
      omega)]
    rw [List.drop_drop, List.append_assoc, List.singleton_append, List.map_cons]
    congr 1
    rw [List.length_drop]
    simp only [List.length_append, List.length_cons, List.length_nil]
    omega

/-- C2: for any sequence of `record_tick` calls with strictly increasing
tick numbers whose records carry snapshots stamped with their own tick (as
the driver produces them), the retained ticks are exactly the last
`max_ticks` recorded ones, `get_snapshot t` returns a snapshot whose tick
equals `t` for every retained `t`, and returns none for any evicted or
never-recorded tick. -/
theorem record_tick_get_snapshot (K : Nat) (seq : List (TickRecord α))
    (hinc : seq.Pairwise (fun a b => a.tick < b.tick))
    (hsnap : ∀ r ∈ seq, r.snapshot.tick = r.tick) :
    ((seq.foldl InMemoryHistoryStore.record_tick
        (InMemoryHistoryStore.empty α K)).retainedTicks =
      (seq.map (·.tick)).drop (seq.length - K)) ∧
    (∀ t ∈ (seq.foldl InMemoryHistoryStore.record_tick
        (InMemoryHistoryStore.empty α K)).retainedTicks,
      ∃ s, (seq.foldl InMemoryHistoryStore.record_tick
        (InMemoryHistoryStore.empty α K)).get_snapshot t = some s ∧ s.tick = t) ∧
    (∀ t, t ∉ (seq.foldl InMemoryHistoryStore.record_tick
        (InMemoryHistoryStore.empty α K)).retainedTicks →
      (seq.foldl InMemoryHistoryStore.record_tick
        (InMemoryHistoryStore.empty α K)).get_snapshot t = none) := by
  have hrecords : (seq.foldl InMemoryHistoryStore.record_tick
      (InMemoryHistoryStore.empty α K)).records =
      (seq.map (fun r => (r.tick, r))).drop (seq.length - K) := by
    have h := record_tick_foldl_suffix K seq (InMemoryHistoryStore.empty α K)
      rfl (by simp [InMemoryHistoryStore.empty]) hinc
      (by intro p hp; simp [InMemoryHistoryStore.empty] at hp)
    simpa [InMemoryHistoryStore.empty] using h
  refine ⟨?_, ?_, ?_⟩
  · rw [InMemoryHistoryStore.retainedTicks, hrecords, ← List.map_drop,
      ← List.map_drop, List.map_map]
    rfl
  · intro t ht
    rw [InMemoryHistoryStore.retainedTicks, List.mem_map] at ht
    obtain ⟨p, hp, hpt⟩ := ht
    rcases hf : (seq.foldl InMemoryHistoryStore.record_tick
        (InMemoryHistoryStore.empty α K)).records.find? (fun q => q.1 == t)
      with _ | q
    · rw [List.find?_eq_none] at hf
      exact absurd (by simp [hpt]) (hf p hp)
    · have hqt : q.1 = t := by simpa using List.find?_some hf
      have hqm : q ∈ (seq.foldl InMemoryHistoryStore.record_tick
          (InMemoryHistoryStore.empty α K)).records := List.mem_of_find?_eq_some hf
      rw [hrecords] at hqm
      have hqm2 := List.mem_of_mem_drop hqm
      rw [List.mem_map] at hqm2
      obtain ⟨r, hr, hrq⟩ := hqm2
      refine ⟨q.2.snapshot, ?_, ?_⟩
      · rw [InMemoryHistoryStore.get_snapshot, InMemoryHistoryStore.get_tick, hf]
        rfl
      · have hq2 : q.2 = r := by rw [← hrq]
        have hq1 : q.1 = r.tick := by rw [← hrq]
        rw [hq2, hsnap r hr, ← hq1, hqt]
  · intro t ht
    have hf : (seq.foldl InMemoryHistoryStore.record_tick
        (InMemoryHistoryStore.empty α K)).records.find? (fun p => p.1 == t)
        = none := by
      rw [List.find?_eq_none]
      intro p hp
      simp only [beq_iff_eq]
      intro hpt
      exact ht (hpt ▸ List.mem_map.2 ⟨p, hp, rfl⟩)
    rw [InMemoryHistoryStore.get_snapshot, InMemoryHistoryStore.get_tick, hf]
    rfl

/-- Witness for C2: capacity 2, ticks 1 < 2 < 3 recorded; ticks 2 and 3
are retained, tick 1 is evicted. -/
theorem record_tick_get_snapshot_witness :
    let mkRec : Nat → TickRecord Nat := fun t => ⟨t, 0, ⟨t, 0, 0, [], []⟩, []⟩
    let seq := [mkRec 1, mkRec 2, mkRec 3]
    (seq.Pairwise (fun a b => a.tick < b.tick)) ∧
    (∀ r ∈ seq, r.snapshot.tick = r.tick) ∧
    ((seq.foldl InMemoryHistoryStore.record_tick
        (InMemoryHistoryStore.empty Nat 2)).retainedTicks =
      (seq.map (·.tick)).drop (seq.length - 2)) ∧
    (∀ t ∈ (seq.foldl InMemoryHistoryStore.record_tick
        (InMemoryHistoryStore.empty Nat 2)).retainedTicks,
      ∃ s, (seq.foldl InMemoryHistoryStore.record_tick
        (InMemoryHistoryStore.empty Nat 2)).get_snapshot t = some s ∧ s.tick = t) := by
  intro mkRec seq
  have h1 : seq.Pairwise (fun a b => a.tick < b.tick) := by
    simp [List.pairwise_cons, mkRec, seq]
  have h2 : ∀ r ∈ seq, r.snapshot.tick = r.tick := by
    intro r hr
    simp only [seq, mkRec, List.mem_cons, List.not_mem_nil, or_false] at hr
    rcases hr with rfl | rfl | rfl <;> rfl
  have h := record_tick_get_snapshot 2 seq h1 h2
  exact ⟨h1, h2, h.1, h.2.1⟩

/-- C3 counterexample: `record_tick` is not idempotent on the tick number.
Re-recording tick 1 with a different payload replaces the stored record
(the behaviour `test_overwrite_same_tick` asserts), so the store state
changes. -/
theorem record_tick_not_idempotent :
    let r1 : TickRecord Nat := ⟨1, 0, ⟨1, 0, 0, [], []⟩, []⟩
    let r2 : TickRecord Nat := ⟨1, 0, ⟨1, 0, 0, [⟨7, []⟩], []⟩, []⟩
    let st := (InMemoryHistoryStore.empty Nat 10).record_tick r1
    ¬ (st.record_tick r2 = st) := by
  intro r1 r2 st
  decide

/-- C3 amended: re-recording a retained tick `t` leaves the sequence of
retained ticks unchanged (no eviction, no reordering) and leaves every
other tick's record untouched, but replaces the record stored at `t` with
the new one; it is a no-op only when the new record equals the stored one. -/
theorem record_tick_overwrite (st : InMemoryHistoryStore α) (r : TickRecord α)
    (hsz : st.records.length ≤ st.max_ticks)
    (hmem : r.tick ∈ st.retainedTicks) :
    (st.record_tick r).retainedTicks = st.retainedTicks ∧
    (st.record_tick r).get_tick r.tick = some r ∧
    (∀ t, t ≠ r.tick → (st.record_tick r).get_tick t = st.get_tick t) := by
  rw [InMemoryHistoryStore.retainedTicks, List.mem_map] at hmem
  obtain ⟨p0, hp0, hp0t⟩ := hmem
  have hcond : (st.records.find? (fun p => p.1 == r.tick)).isSome = true := by
    rw [List.find?_isSome]
    exact ⟨p0, hp0, by simp [hp0t]⟩
  have hset : odSet st.records r.tick r =
      st.records.map (fun p => if p.1 == r.tick then (r.tick, r) else p) := by
    rw [odSet, if_pos hcond]
  have hkeys : (st.records.map (fun p => if p.1 == r.tick then (r.tick, r) else p)).map
      (·.1) = st.records.map (·.1) := by
    rw [List.map_map]
    apply List.map_congr_left
    intro p hp
    by_cases hpk : p.1 = r.tick
    · simp [hpk]
    · simp [hpk]
  have hrec : (st.record_tick r).records =
      st.records.map (fun p => if p.1 == r.tick then (r.tick, r) else p) := by
    rw [InMemoryHistoryStore.record_tick, hset, evictOldest_eq_drop]
    have hlen : (st.records.map
        (fun p => if p.1 == r.tick then (r.tick, r) else p)).length -
        st.max_ticks = 0 := by
      rw [List.length_map]
      omega
    rw [hlen, List.drop_zero]
  refine ⟨?_, ?_, ?_⟩
  · rw [InMemoryHistoryStore.retainedTicks, InMemoryHistoryStore.retainedTicks,
      hrec, hkeys]
  · rw [InMemoryHistoryStore.get_tick, hrec, List.find?_map]
    have hpf : ((fun q : Nat × TickRecord α => q.1 == r.tick) ∘
        (fun p => if p.1 == r.tick then (r.tick, r) else p)) =
        (fun p : Nat × TickRecord α => p.1 == r.tick) := by
      funext p
      by_cases hpk : p.1 = r.tick <;> simp [hpk]
    rw [hpf]
    rcases hf : st.records.find? (fun p => p.1 == r.tick) with _ | q
    · rw [hf] at hcond; exact absurd hcond (by simp)
    · have hq : q.1 = r.tick := by simpa using List.find?_some hf
      rw [hf]
      simp [hq]
  · intro t hne
    rw [InMemoryHistoryStore.get_tick, InMemoryHistoryStore.get_tick, hrec,
      List.find?_map]
    have hpf : ((fun q : Nat × TickRecord α => q.1 == t) ∘
        (fun p => if p.1 == r.tick then (r.tick, r) else p)) =
        (fun p : Nat × TickRecord α => p.1 == t) := by
      funext p
      by_cases hpk : p.1 = r.tick
      · simp [hpk, Ne.symm hne]
      · simp [hpk]
    rw [hpf]
    rcases hf : st.records.find? (fun p => p.1 == t) with _ | q
    · rw [hf]
      rfl
    · have hq : q.1 = t := by simpa using List.find?_some hf
      rw [hf]
      have hfix : (if (q.1 == r.tick) = true then (r.tick, r) else q) = q := by
        rw [if_neg]
        simp [hq, hne]
      show some (if (q.1 == r.tick) = true then (r.tick, r) else q).2 = some q.2
      rw [hfix]

/-- Witness for C3's amended theorem: a store holding ticks 1 and 2 with
capacity 10, re-recording tick 1. -/
theorem record_tick_overwrite_witness :
    let r1 : TickRecord Nat := ⟨1, 0, ⟨1, 0, 0, [], []⟩, []⟩
    let r2 : TickRecord Nat := ⟨2, 0, ⟨2, 0, 0, [], []⟩, []⟩
    let r1b : TickRecord Nat := ⟨1, 0, ⟨1, 0, 0, [⟨7, []⟩], []⟩, []⟩
    let st := ((InMemoryHistoryStore.empty Nat 10).record_tick r1).record_tick r2
    st.records.length ≤ st.max_ticks ∧ (1 : Nat) ∈ st.retainedTicks ∧
    ((st.record_tick r1b).retainedTicks = st.retainedTicks ∧
      (st.record_tick r1b).get_tick 1 = some r1b ∧
      (∀ t, t ≠ (1 : Nat) → (st.record_tick r1b).get_tick t = st.get_tick t)) := by
  intro r1 r2 r1b st
  exact ⟨by decide, by decide, record_tick_overwrite st r1b (by decide) (by decide)⟩

/-! ### The checkpoint+delta history store (spec §4.C, instantiated by
`sources/mock.py` but absent from `src`) -/

/-- A retained history entry: a full snapshot (checkpoint) or a delta. -/
inductive HistoryEntry (α : Type) where
  | checkpoint (snap : WorldSnapshot α)
  | delta (d : TickDelta α)
deriving DecidableEq, Repr

/-- Whether an entry is a checkpoint. -/
def HistoryEntry.isCheckpoint : HistoryEntry α → Bool
  | .checkpoint _ => true
  | .delta _ => false

/-- Modelled from the spec: the checkpoint+delta variant of
`InMemoryHistoryStore` (§4.C) that `sources/mock.py` instantiates with
`max_ticks` and `checkpoint_interval`; its implementation is absent from
`src`.  `entries` is the tick-ordered bounded series, `last_snapshot`
caches the most recently recorded snapshot (the diff base), and
`errors`/`spans` are the ancillary side-stores keyed by tick. -/
structure CheckpointHistoryStore (α : Type) where
  max_ticks : Nat
  checkpoint_interval : Nat
  entries : List (Nat × HistoryEntry α)
  last_snapshot : Option (WorldSnapshot α)
  errors : List (Nat × α)
  spans : List (Nat × α)
deriving DecidableEq, Repr

/-- True when the series is empty or starts with a checkpoint: the store
invariant "the earliest retained tick is always a checkpoint". -/
def headIsCheckpoint : List (Nat × HistoryEntry α) → Bool
  | [] => true
  | (_, .checkpoint _) :: _ => true
  | (_, .delta _) :: _ => false

/-- Modelled from the spec (§4.C, eviction with promotion): evict the
oldest entry while over the limit; when the evicted head is a checkpoint C
and the next retained entry is a delta, promote the successor to the
checkpoint `apply C delta` so the earliest retained tick stays a
checkpoint. -/
def evictPromote (maxTicks : Nat) :
    List (Nat × HistoryEntry α) → List (Nat × HistoryEntry α)
  | [] => []
  | e :: rest =>
    if (e :: rest).length ≤ maxTicks then e :: rest
    else
      match e.2, rest with
      | .checkpoint c, (t, .delta d) :: rest2 =>
        evictPromote maxTicks ((t, .checkpoint (apply c d)) :: rest2)
      | _, rest2 => evictPromote maxTicks rest2
termination_by l => l.length
decreasing_by
  all_goals simp only [List.length_cons]
  all_goals omega

/-- Modelled from the spec: `record_tick(snapshot)` of the checkpoint store
(§4.C).  Idempotent on the tick number; the first ever tick and every tick
with `tick % checkpoint_interval == 0` is stored as a checkpoint, all other
ticks as a delta against the most recently recorded snapshot; then evict
oldest (with promotion) until size ≤ `max_ticks`. -/
def CheckpointHistoryStore.record_tick (st : CheckpointHistoryStore α)
    (snap : WorldSnapshot α) : CheckpointHistoryStore α :=
  if (st.entries.find? (fun p => p.1 == snap.tick)).isSome then st
  else
    let entry : HistoryEntry α :=
      match st.last_snapshot with
      | none => .checkpoint snap
      | some prev =>
        if snap.tick % st.checkpoint_interval == 0 then .checkpoint snap
        else .delta (diff prev snap)
    { st with
      entries := evictPromote st.max_ticks (st.entries ++ [(snap.tick, entry)])
      last_snapshot := some snap }

/-- Fold the retained entries after a checkpoint over its snapshot,
applying deltas in order. -/
def reconstructFrom (base : WorldSnapshot α)
    (entries : List (Nat × HistoryEntry α)) : WorldSnapshot α :=
  entries.foldl (fun acc p =>
    match p.2 with
    | .checkpoint c => c
    | .delta d => apply acc d) base

/-- Modelled from the spec: `get_snapshot(tick)` of the checkpoint store
(§4.C).  None when the tick is not retained; a retained checkpoint is
returned directly; otherwise the greatest checkpoint tick C ≤ tick is
located and the stored deltas applied forward from C through tick.  (The
spec's binary-search floor lookup is modelled by a direct scan: the
complexity target has no shallow embedding.) -/
def CheckpointHistoryStore.get_snapshot (st : CheckpointHistoryStore α)
    (t : Nat) : Option (WorldSnapshot α) :=
  match st.entries.find? (fun p => p.1 == t) with
  | none => none
  | some (_, .checkpoint c) => some c
  | some (_, .delta _) =>
    match (st.entries.filter
        (fun p => decide (p.1 ≤ t) && p.2.isCheckpoint)).getLast? with
    | some (c0, .checkpoint base) =>
      some (reconstructFrom base
        (st.entries.filter (fun p => decide (c0 < p.1) && decide (p.1 ≤ t))))
    | _ => none

/-- `clear()`: empties the series, the diff base and the side-stores. -/
def CheckpointHistoryStore.clear (st : CheckpointHistoryStore α) :
    CheckpointHistoryStore α :=
  { st with entries := [], last_snapshot := none, errors := [], spans := [] }

/-- `record_error(event)`: append to the error side-store under its tick. -/
def CheckpointHistoryStore.record_error (st : CheckpointHistoryStore α)
    (te : Nat × α) : CheckpointHistoryStore α :=
  { st with errors := st.errors ++ [te] }

/-- `record_span(event)`: append to the span side-store under its tick. -/
def CheckpointHistoryStore.record_span (st : CheckpointHistoryStore α)
    (te : Nat × α) : CheckpointHistoryStore α :=
  { st with spans := st.spans ++ [te] }

/-- `get_tick_range()`: first and last retained ticks. -/
def CheckpointHistoryStore.get_tick_range (st : CheckpointHistoryStore α) :
    Option (Nat × Nat) :=
  match st.entries.head?, st.entries.getLast? with
  | some a, some b => some (a.1, b.1)
  | _, _ => none

/-- The retained tick keys, oldest first. -/
def CheckpointHistoryStore.retainedTicks (st : CheckpointHistoryStore α) :
    List Nat :=
  st.entries.map (·.1)

/-- A freshly constructed checkpoint store. -/
def CheckpointHistoryStore.empty (α : Type) (maxTicks interval : Nat) :
    CheckpointHistoryStore α :=
  ⟨maxTicks, interval, [], none, [], []⟩

theorem evictPromote_spec {K : Nat} (hK : 0 < K)
    (l : List (Nat × HistoryEntry α)) :
    headIsCheckpoint l = true →
    (evictPromote K l).length = min l.length K ∧
    headIsCheckpoint (evictPromote K l) = true ∧
    (∀ p ∈ evictPromote K l, p.1 ∈ l.map (·.1)) := by
  induction l using evictPromote.induct K with
  | case1 =>
    intro _
    refine ⟨?_, ?_, ?_⟩ <;> simp [evictPromote, headIsCheckpoint]
  | case2 e rest hle =>
    intro hh
    have hev : evictPromote K (e :: rest) = e :: rest := by
      rw [evictPromote.eq_def]
      dsimp only
      rw [if_pos hle]
    rw [hev]
    exact ⟨(Nat.min_eq_left hle).symm, hh,
      fun p hp => List.mem_map.2 ⟨p, hp, rfl⟩⟩
  | case3 e c t d rest2 he2 hlen ih =>
    intro hh
    obtain ⟨te, e2⟩ := e
    simp only at he2
    subst he2
    have hev : evictPromote K
        ((te, HistoryEntry.checkpoint c) :: (t, HistoryEntry.delta d) :: rest2) =
        evictPromote K ((t, HistoryEntry.checkpoint (apply c d)) :: rest2) := by
      rw [evictPromote.eq_def]
      dsimp only
      rw [if_neg hlen]
    obtain ⟨ihlen, ihhd, ihkeys⟩ := ih rfl
    rw [hev]
    refine ⟨?_, ihhd, ?_⟩
    · rw [ihlen]
      simp only [List.length_cons] at hlen ⊢
      omega
    · intro p hp
      have hk := ihkeys p hp
      simp only [List.map_cons, List.mem_cons] at hk ⊢
      tauto
  | case4 e rest2 hnomatch hlen ih =>
    intro hh
    obtain ⟨te, e2⟩ := e
    rcases e2 with c | d
    · rcases rest2 with _ | ⟨⟨t2, e22⟩, rest3⟩
      · exact absurd (by simpa using hK) hlen
      · rcases e22 with c2 | d2
        · have hev : evictPromote K
              ((te, HistoryEntry.checkpoint c) ::
                (t2, HistoryEntry.checkpoint c2) :: rest3) =
              evictPromote K ((t2, HistoryEntry.checkpoint c2) :: rest3) := by
            rw [evictPromote.eq_def]
            dsimp only
            rw [if_neg hlen]
          obtain ⟨ihlen, ihhd, ihkeys⟩ := ih rfl
          rw [hev]
          refine ⟨?_, ihhd, ?_⟩
          · rw [ihlen]
            simp only [List.length_cons] at hlen ⊢
            omega
          · intro p hp
            have hk := ihkeys p hp
            simp only [List.map_cons, List.mem_cons] at hk ⊢
            tauto
        · exact absurd rfl (fun h => hnomatch c t2 d2 rest3 rfl h)
    · exact absurd hh (by simp [headIsCheckpoint])

theorem headIsCheckpoint_append {l : List (Nat × HistoryEntry α)}
    (x : Nat × HistoryEntry α) (h : l ≠ []) :
    headIsCheckpoint (l ++ [x]) = headIsCheckpoint l := by
  rcases l with _ | ⟨⟨t, e⟩, rest⟩
  · exact absurd rfl h
  · rcases e with c | d <;> rfl

theorem cs_record_tick_fresh {st : CheckpointHistoryStore α}
    {snap : WorldSnapshot α}
    (h : ¬ ((st.entries.find? (fun p => p.1 == snap.tick)).isSome = true)) :
    st.record_tick snap = { st with
      entries := evictPromote st.max_ticks (st.entries ++ [(snap.tick,
        match st.last_snapshot with
        | none => HistoryEntry.checkpoint snap
        | some prev =>
          if snap.tick % st.checkpoint_interval == 0 then
            HistoryEntry.checkpoint snap
          else HistoryEntry.delta (diff prev snap))]),
      last_snapshot := some snap } := by
  rw [CheckpointHistoryStore.record_tick, if_neg h]

theorem cs_fold_invariant {K : Nat} (hK : 0 < K) :
    ∀ (seq : List (WorldSnapshot α)) (st : CheckpointHistoryStore α),
    st.max_ticks = K →
    st.entries.length ≤ K →
    headIsCheckpoint st.entries = true →
    (st.entries = [] → st.last_snapshot = none) →
    seq.Pairwise (fun a b => a.tick < b.tick) →
    (∀ p ∈ st.entries, ∀ s ∈ seq, p.1 < s.tick) →
    (seq.foldl CheckpointHistoryStore.record_tick st).entries.length =
      min (st.entries.length + seq.length) K ∧
    headIsCheckpoint
      (seq.foldl CheckpointHistoryStore.record_tick st).entries = true := by
  intro seq
  induction seq with
  | nil =>
    intro st hmax hlen hhd _ _ _
    refine ⟨?_, hhd⟩
    rw [List.foldl_nil, List.length_nil, Nat.add_zero, Nat.min_eq_left hlen]
  | cons snap seq ih =>
    intro st hmax hlen hhd hlast hpw hlt
    rw [List.foldl_cons]
    have hfresh : ¬ ((st.entries.find? (fun p => p.1 == snap.tick)).isSome
        = true) := by
      rw [List.find?_isSome]
      rintro ⟨p, hp, hpt⟩
      have hplt := hlt p hp snap (by simp)
      rw [beq_iff_eq] at hpt
      omega
    have hhd2 : headIsCheckpoint (st.entries ++ [(snap.tick,
        match st.last_snapshot with
        | none => HistoryEntry.checkpoint snap
        | some prev =>
          if snap.tick % st.checkpoint_interval == 0 then
            HistoryEntry.checkpoint snap
          else HistoryEntry.delta (diff prev snap))]) = true := by
      rcases hse : st.entries with _ | ⟨p0, rest0⟩
      · rw [hlast hse, List.nil_append]
        rfl
      · rw [← hse, headIsCheckpoint_append _ (by rw [hse]; simp)]
        exact hhd
    obtain ⟨hevlen, hevhd, hevkeys⟩ :=
      evictPromote_spec hK (st.entries ++ [(snap.tick,
        match st.last_snapshot with
        | none => HistoryEntry.checkpoint snap
        | some prev =>
          if snap.tick % st.checkpoint_interval == 0 then
            HistoryEntry.checkpoint snap
          else HistoryEntry.delta (diff prev snap))]) hhd2
    have hrec := cs_record_tick_fresh hfresh
    have hrecE : (st.record_tick snap).entries =
        evictPromote K (st.entries ++ [(snap.tick,
        match st.last_snapshot with
        | none => HistoryEntry.checkpoint snap
        | some prev =>
          if snap.tick % st.checkpoint_interval == 0 then
            HistoryEntry.checkpoint snap
          else HistoryEntry.delta (diff prev snap))]) := by
      rw [hrec, hmax]
    have hmax2 : (st.record_tick snap).max_ticks = K := by rw [hrec]; exact hmax
    have hint2 : (st.record_tick snap).checkpoint_interval =
        st.checkpoint_interval := by rw [hrec]
    have hlen2 : (st.record_tick snap).entries.length ≤ K := by
      rw [hrecE, hevlen]
      omega
    have hhd3 : headIsCheckpoint (st.record_tick snap).entries = true := by
      rw [hrecE]
      exact hevhd
    have hlast2 : (st.record_tick snap).entries = [] →
        (st.record_tick snap).last_snapshot = none := by
      intro habs
      rw [hrecE] at habs
      have hla := congrArg List.length habs
      rw [hevlen] at hla
      simp only [List.length_append, List.length_cons, List.length_nil] at hla
      omega
    have hpw2 : seq.Pairwise (fun a b => a.tick < b.tick) :=
      (List.pairwise_cons.1 hpw).2
    have hlt2 : ∀ p ∈ (st.record_tick snap).entries, ∀ s ∈ seq,
        p.1 < s.tick := by
      intro p hp s hs
      rw [hrecE] at hp
      have hk := hevkeys p hp
      rw [List.map_append, List.mem_append] at hk
      rcases hk with hk | hk
      · rw [List.mem_map] at hk
        obtain ⟨q, hq, hqk⟩ := hk
        rw [← hqk]
        exact hlt q hq s (by simp [hs])
      · have hks : p.1 = snap.tick := by simpa using hk
        rw [hks]
        exact (List.pairwise_cons.1 hpw).1 s hs
    obtain ⟨hfl, hfh⟩ := ih (st.record_tick snap) hmax2 hlen2 hhd3 hlast2
      hpw2 hlt2
    refine ⟨?_, hfh⟩
    rw [hfl, hrecE, hevlen]
    simp only [List.length_append, List.length_cons, List.length_nil]
    omega

/-- C4: for a checkpoint store with capacity `max_ticks = K`, after
recording a strictly increasing sequence of at least K snapshots (so every
record_tick call that overflows capacity has evicted down to capacity),
exactly K ticks are retained and the earliest retained tick is stored as a
checkpoint (a full snapshot) — eviction of a checkpoint promotes its
successor delta to a checkpoint via `apply`, which is what maintains this
invariant. -/
theorem checkpoint_eviction_capacity (K interval : Nat) (hK : 0 < K)
    (seq : List (WorldSnapshot α))
    (hinc : seq.Pairwise (fun a b => a.tick < b.tick))
    (hlen : K ≤ seq.length) :
    ((seq.foldl CheckpointHistoryStore.record_tick
        (CheckpointHistoryStore.empty α K interval)).entries.length = K) ∧
    (∃ t c, (seq.foldl CheckpointHistoryStore.record_tick
        (CheckpointHistoryStore.empty α K interval)).entries.head? =
      some (t, HistoryEntry.checkpoint c)) := by
  obtain ⟨hfl, hfh⟩ := cs_fold_invariant hK seq
    (CheckpointHistoryStore.empty α K interval) rfl
    (by simp [CheckpointHistoryStore.empty]) rfl (fun _ => rfl) hinc
    (by intro p hp; simp [CheckpointHistoryStore.empty] at hp)
  have hlenK : (seq.foldl CheckpointHistoryStore.record_tick
      (CheckpointHistoryStore.empty α K interval)).entries.length = K := by
    rw [hfl]
    simp only [CheckpointHistoryStore.empty, List.length_nil]
    omega
  refine ⟨hlenK, ?_⟩
  rcases hE : (seq.foldl CheckpointHistoryStore.record_tick
      (CheckpointHistoryStore.empty α K interval)).entries with _ | ⟨⟨t, e⟩, rest⟩
  · rw [hE] at hlenK
    simp at hlenK
    omega
  · rw [hE] at hfh
    rcases e with c | d
    · exact ⟨t, c, rfl⟩
    · exact absurd hfh (by simp [headIsCheckpoint])

/-- Witness for C4 at the spec's S4-style scenario: capacity 2,
checkpoint interval 5, ticks 0 (checkpoint), 1 and 2 (deltas); recording
tick 2 evicts the tick-0 checkpoint, promoting tick 1 to a checkpoint. -/
theorem checkpoint_eviction_capacity_witness :
    let mk : Nat → WorldSnapshot Nat := fun t =>
      { tick := t, timestamp := 0, entity_count := 1,
        entities := [⟨1, [⟨"mock.P", "P", t⟩]⟩], metadata := [] }
    let seq := [mk 0, mk 1, mk 2]
    (seq.Pairwise (fun a b => a.tick < b.tick)) ∧ 2 ≤ seq.length ∧
    ((seq.foldl CheckpointHistoryStore.record_tick
        (CheckpointHistoryStore.empty Nat 2 5)).entries.length = 2) ∧
    (∃ t c, (seq.foldl CheckpointHistoryStore.record_tick
        (CheckpointHistoryStore.empty Nat 2 5)).entries.head? =
      some (t, HistoryEntry.checkpoint c)) := by
  intro mk seq
  have h1 : seq.Pairwise (fun a b => a.tick < b.tick) := by
    simp [seq, mk, List.pairwise_cons]
  have h2 : 2 ≤ seq.length := by simp [seq]
  have h := checkpoint_eviction_capacity 2 5 (by omega) seq h1 h2
  exact ⟨h1, h2, h.1, h.2⟩

/-! ### Subscriber queues and event fan-out (`sources/_base.py`) -/

/-- A bounded per-subscriber event queue (`asyncio.Queue(maxsize=...)`);
as in asyncio, `maxsize = 0` means unbounded. -/
structure SubQueue (ε : Type) where
  maxsize : Nat
  items : List ε
deriving DecidableEq, Repr

/-- Whether `put_nowait` would raise `QueueFull`. -/
def SubQueue.isFull {ε : Type} (q : SubQueue ε) : Bool :=
  decide (0 < q.maxsize) && decide (q.maxsize ≤ q.items.length)

/-- `asyncio.Queue.put_nowait`: enqueue, or raise `QueueFull`. -/
def SubQueue.put_nowait {ε : Type} (q : SubQueue ε) (e : ε) :
    Except Unit (SubQueue ε) :=
  if q.isFull then .error () else .ok { q with items := q.items ++ [e] }

/-- `TickLoopSource._emit_event`: for each subscriber queue in turn attempt
a non-blocking enqueue; on `QueueFull` keep the queue as is, drop the event
and log a warning.  Returns the updated queues and the number of dropped
(warned) deliveries; the iteration is total — no exception escapes and
nothing blocks. -/
def emitEvent {ε : Type} (qs : List (SubQueue ε)) (e : ε) :
    List (SubQueue ε) × Nat :=
  qs.foldl (fun acc q =>
    match q.put_nowait e with
    | .ok q2 => (acc.1 ++ [q2], acc.2)
    | .error _ => (acc.1 ++ [q], acc.2 + 1)) ([], 0)

theorem emitEvent_foldl_char {ε : Type} (e : ε) :
    ∀ (qs : List (SubQueue ε)) (acc : List (SubQueue ε) × Nat),
    qs.foldl (fun acc q =>
      match q.put_nowait e with
      | .ok q2 => (acc.1 ++ [q2], acc.2)
      | .error _ => (acc.1 ++ [q], acc.2 + 1)) acc =
    (acc.1 ++ qs.map (fun q =>
        if q.isFull then q else { q with items := q.items ++ [e] }),
      acc.2 + (qs.filter (fun q => q.isFull)).length) := by
  intro qs
  induction qs with
  | nil => intro acc; simp
  | cons q qs ih =>
    intro acc
    rw [List.foldl_cons]
    by_cases hq : q.isFull
    · have hput : q.put_nowait e = .error () := by
        rw [SubQueue.put_nowait, if_pos hq]
      rw [hput, ih]
      simp [hq, List.filter_cons]
      omega
    · have hput : q.put_nowait e = .ok { q with items := q.items ++ [e] } := by
        rw [SubQueue.put_nowait, if_neg hq]
      rw [hput, ih]
      simp [hq, List.filter_cons]

/-- C8: emitting an event performs a non-blocking enqueue into each
subscriber queue independently: a full queue keeps its contents and counts
one logged-warning drop, every non-full queue receives the event appended,
and the subscriber set itself is unchanged in size and order.  `emitEvent`
is a total function: emission never raises or blocks. -/
theorem emit_event_fanout {ε : Type} (qs : List (SubQueue ε)) (e : ε) :
    (emitEvent qs e).1 = qs.map (fun q =>
      if q.isFull then q else { q with items := q.items ++ [e] }) ∧
    (emitEvent qs e).2 = (qs.filter (fun q => q.isFull)).length := by
  rw [emitEvent, emitEvent_foldl_char]
  simp

/-- The observable outcome of one full run of `TickLoopSource.subscribe`'s
generator: the events it yielded, whether a queue was ever registered, and
the subscriber set after the generator finished (the `finally` block
discards its queue again). -/
structure SubscribeRun (ε : Type) where
  yielded : List ε
  registered : Bool
  final_subscribers : List (SubQueue ε)
deriving DecidableEq, Repr

/-- `TickLoopSource.subscribe` (`_base.py`), abstracted over the events
`feed` that the driver enqueues into the fresh queue during the
subscription's lifetime.  With no stop event (the source was never
connected) the generator returns immediately: no queue is registered and
nothing is yielded.  Otherwise a fresh bounded queue joins the subscriber
set, `_emit_initial_events` then the fed events are yielded until the stop
signal, and the queue is discarded on exit. -/
def subscribeRun {ε : Type} (stop_event : Option Bool)
    (subscribers : List (SubQueue ε)) (maxsize : Nat)
    (initialEvents feed : List ε) : SubscribeRun ε :=
  match stop_event with
  | none => { yielded := [], registered := false, final_subscribers := subscribers }
  | some _ =>
    { yielded := initialEvents ++ feed
      registered := true
      final_subscribers := subscribers }

/-- C10: calling `subscribe()` on a source that has never been connected
(its stop event is absent) yields no events, raises no error (the model is
a total function), and registers no queue — the subscriber set is
unchanged. -/
theorem subscribe_never_connected {ε : Type} (stop_event : Option Bool)
    (subscribers : List (SubQueue ε)) (maxsize : Nat)
    (initialEvents feed : List ε) (h : stop_event = none) :
    (subscribeRun stop_event subscribers maxsize initialEvents feed).yielded = [] ∧
    (subscribeRun stop_event subscribers maxsize initialEvents feed).registered
      = false ∧
    (subscribeRun stop_event subscribers maxsize initialEvents
      feed).final_subscribers = subscribers := by
  rw [h]
  exact ⟨rfl, rfl, rfl⟩

/-- Witness for C10: a disconnected-from-birth source with one existing
queue in the set (none, in fact, matches a fresh source). -/
theorem subscribe_never_connected_witness :
    (none : Option Bool) = none ∧
    ((subscribeRun none ([] : List (SubQueue Nat)) 1000 [] [7]).yielded = [] ∧
      (subscribeRun none ([] : List (SubQueue Nat)) 1000 [] [7]).registered
        = false ∧
      (subscribeRun none ([] : List (SubQueue Nat)) 1000 []
        [7]).final_subscribers = []) :=
  ⟨rfl, subscribe_never_connected none [] 1000 [] [7] rfl⟩

/-! ### The mock world source (`sources/mock.py` over `sources/_base.py`) -/

/-- The server events a mock source emits (`protocol.py` messages;
payloads the claims do not inspect are opaque). -/
inductive ServerEvent (α : Type) where
  | snapshotMsg (tick : Nat) (snap : WorldSnapshot α)
  | errorMsg (tick : Nat) (payload : α)
  | spanMsg (payload : α)
deriving DecidableEq, Repr

/-- A Python value passed as the `ticks_per_second` keyword argument:
int, float, bool (a subclass of int in Python, hence singled out by the
code), str, or None. -/
inductive PyVal where
  | int (n : Int)
  | float (q : ℚ)
  | bool (b : Bool)
  | str (s : String)
  | none
deriving DecidableEq, Repr

/-- Python `isinstance(v, int | float)` — true for bools too, since bool
subclasses int. -/
def pyIsIntOrFloat : PyVal → Bool
  | .int _ => true
  | .float _ => true
  | .bool _ => true
  | _ => false

/-- Python `isinstance(v, bool)`. -/
def pyIsBool : PyVal → Bool
  | .bool _ => true
  | _ => false

/-- The numeric value of a Python number (True = 1, False = 0; 0 for
non-numbers, unreachable behind the isinstance guard). -/
def pyToRat : PyVal → ℚ
  | .int n => n
  | .float q => q
  | .bool b => if b then 1 else 0
  | _ => 0

/-- The mutable state of a `MockWorldSource` (the fields of
`TickLoopSource.__init__` plus `MockWorldSource.__init__`).  The asyncio
stop event is `none` before the first `connect` and `some is_set`
afterwards; the background task handle itself is not modelled — its loop
body is the explicit `MockOp.loop` operation. -/
structure MockState (α : Type) where
  tick_interval : ℚ
  event_queue_maxsize : Nat
  connected : Bool
  paused : Bool
  stop_event : Option Bool
  subscribers : List (SubQueue (ServerEvent α))
  entity_count : Nat
  tick : Nat
  entities : List (EntitySnapshot α)
  history : CheckpointHistoryStore α

/-- `MockWorldSource.__init__` at its default arguments: 50 entities,
tick interval 1.0, queue maxsize 1000, history capacity 1000 with
checkpoint interval 100. -/
def MockState.init (α : Type) : MockState α :=
  { tick_interval := 1
    event_queue_maxsize := 1000
    connected := false
    paused := false
    stop_event := none
    subscribers := []
    entity_count := 50
    tick := 0
    entities := []
    history := CheckpointHistoryStore.empty α 1000 100 }

/-- The random draws of one `_execute_tick`: the entity mutation performed
by `_update_entities`, the wall-clock time of `_build_snapshot`, the
optionally generated error payload (probability `ERROR_PROBABILITY`), and
the generated span payloads. -/
structure TickOracle (α : Type) where
  update : List (EntitySnapshot α) → List (EntitySnapshot α)
  now : ℚ
  errorPayload : Option α
  spanPayloads : List α

/-- `MockWorldSource._build_snapshot`.  `entity_count` is derived from the
entity list (as `test_get_snapshot_current` requires of the model). -/
def buildSnapshot (s : MockState α) (now : ℚ) : WorldSnapshot α :=
  { tick := s.tick
    timestamp := now
    entity_count := s.entities.length
    entities := s.entities
    metadata := [("source", MetaVal.str "mock"),
      ("paused", MetaVal.bool s.paused)] }

/-- Recording and emitting one generated span. -/
def recordSpanStep (st : MockState α) (p : α) : MockState α :=
  { st with
    history := st.history.record_span (st.tick, p)
    subscribers := (emitEvent st.subscribers (ServerEvent.spanMsg p)).1 }

/-- `MockWorldSource._execute_tick`, the tick's random draws supplied by
the oracle: increment the tick, mutate the entities, build and record the
snapshot, emit it, then optionally record and emit an error event, then
record and emit the generated spans. -/
def executeTick (s : MockState α) (o : TickOracle α) : MockState α :=
  let s1 := { s with tick := s.tick + 1, entities := o.update s.entities }
  let snap := buildSnapshot s1 o.now
  let s2 := { s1 with
    history := s1.history.record_tick snap
    subscribers :=
      (emitEvent s1.subscribers (ServerEvent.snapshotMsg s1.tick snap)).1 }
  let s3 := match o.errorPayload with
    | some err => { s2 with
        history := s2.history.record_error (s2.tick, err)
        subscribers :=
          (emitEvent s2.subscribers (ServerEvent.errorMsg s2.tick err)).1 }
    | none => s2
  o.spanPayloads.foldl recordSpanStep s3

/-- A `send_command` argument; a `step` carries the random draws the
triggered `_execute_tick` will use. -/
inductive Command (α : Type) where
  | pause
  | resume
  | step (o : TickOracle α)
  | set_speed (v : PyVal)
  | other (name : String)

/-- `MockWorldSource.send_command`: `pause` sets the flag, `resume` clears
it, `step` advances one tick only when paused, `set_speed` validates the
value with `isinstance(tps, int | float) and not isinstance(tps, bool) and
tps > 0` before setting `tick_interval = 1.0 / tps`, anything else is
ignored. -/
def sendCommand (s : MockState α) : Command α → MockState α
  | .pause => { s with paused := true }
  | .resume => { s with paused := false }
  | .step o => if s.paused then executeTick s o else s
  | .set_speed v =>
    if pyIsIntOrFloat v && ! pyIsBool v && decide (0 < pyToRat v) then
      { s with tick_interval := 1 / pyToRat v }
    else s
  | .other _ => s

/-- `TickLoopSource.connect` followed by `MockWorldSource._on_connect`,
with the regenerated entities and the wall-clock time as oracles: mark
connected, create a fresh (unset) stop event, reset the subscriber set,
reset tick and pause flag, clear the history, regenerate the entities and
record the initial (tick 0) snapshot. -/
def connect (s : MockState α) (gen : List (EntitySnapshot α)) (now : ℚ) :
    MockState α :=
  let s1 := { s with
    connected := true
    stop_event := some false
    subscribers := []
    tick := 0
    paused := false
    entities := gen
    history := s.history.clear }
  { s1 with history := s1.history.record_tick (buildSnapshot s1 now) }

/-- `TickLoopSource.disconnect`: mark disconnected, set the stop signal,
cancel and join the loop task, clear the subscriber set. -/
def disconnect (s : MockState α) : MockState α :=
  { s with
    connected := false
    stop_event := s.stop_event.map (fun _ => true)
    subscribers := [] }

/-- One driver-loop iteration (`MockWorldSource._tick_loop_body`): advance
unless paused. -/
def tickLoopBody (s : MockState α) (o : TickOracle α) : MockState α :=
  if s.paused then s else executeTick s o

/-- An operation between connect and disconnect: a `send_command` call or
one driver-loop iteration. -/
inductive MockOp (α : Type) where
  | command (c : Command α)
  | loop (o : TickOracle α)

/-- Apply one operation. -/
def applyOp (s : MockState α) : MockOp α → MockState α
  | .command c => sendCommand s c
  | .loop o => tickLoopBody s o

/-! ### State-preservation lemmas for the mock source -/

theorem spanFold_tick : ∀ (ps : List α) (st : MockState α),
    (ps.foldl recordSpanStep st).tick = st.tick := by
  intro ps
  induction ps with
  | nil => intro st; rfl
  | cons p ps ih =>
    intro st
    rw [List.foldl_cons, ih]
    rfl

theorem spanFold_history_max : ∀ (ps : List α) (st : MockState α),
    (ps.foldl recordSpanStep st).history.max_ticks = st.history.max_ticks := by
  intro ps
  induction ps with
  | nil => intro st; rfl
  | cons p ps ih =>
    intro st
    rw [List.foldl_cons, ih]
    rfl

theorem cs_record_tick_max (st : CheckpointHistoryStore α)
    (snap : WorldSnapshot α) :
    (st.record_tick snap).max_ticks = st.max_ticks := by
  rw [CheckpointHistoryStore.record_tick]
  split <;> rfl

theorem executeTick_tick (s : MockState α) (o : TickOracle α) :
    (executeTick s o).tick = s.tick + 1 := by
  rcases herr : o.errorPayload with _ | err <;>
    simp [executeTick, herr, spanFold_tick]

theorem executeTick_history_max (s : MockState α) (o : TickOracle α) :
    (executeTick s o).history.max_ticks = s.history.max_ticks := by
  rcases herr : o.errorPayload with _ | err <;>
    simp [executeTick, herr, spanFold_history_max, cs_record_tick_max,
      CheckpointHistoryStore.record_error]

theorem applyOp_history_max (s : MockState α) (op : MockOp α) :
    (applyOp s op).history.max_ticks = s.history.max_ticks := by
  rcases op with c | o
  · rcases c with _ | _ | o | v | n
    · rfl
    · rfl
    · show (if s.paused then executeTick s o else s).history.max_ticks = _
      by_cases hp : s.paused = true
      · rw [if_pos hp, executeTick_history_max]
      · rw [if_neg hp]
    · show (if _ then _ else s).history.max_ticks = _
      split <;> rfl
    · rfl
  · show (if s.paused then s else executeTick s o).history.max_ticks = _
    by_cases hp : s.paused = true
    · rw [if_pos hp]
    · rw [if_neg hp, executeTick_history_max]

theorem foldl_applyOp_history_max : ∀ (ops : List (MockOp α)) (s : MockState α),
    (ops.foldl applyOp s).history.max_ticks = s.history.max_ticks := by
  intro ops
  induction ops with
  | nil => intro s; rfl
  | cons op ops ih =>
    intro s
    rw [List.foldl_cons, ih, applyOp_history_max]

theorem cs_clear_record_ticks (st : CheckpointHistoryStore α)
    (snap : WorldSnapshot α) (hmax : 0 < st.max_ticks) :
    ((st.clear).record_tick snap).retainedTicks = [snap.tick] := by
  have hfresh : ¬ ((((st.clear).entries).find?
      (fun p => p.1 == snap.tick)).isSome = true) := by
    simp [CheckpointHistoryStore.clear]
  rw [cs_record_tick_fresh hfresh]
  have hev : evictPromote st.max_ticks
      [(snap.tick, HistoryEntry.checkpoint snap)] =
      [(snap.tick, HistoryEntry.checkpoint snap)] := by
    rw [evictPromote.eq_def]
    dsimp only
    rw [if_pos (by simp; omega)]
  simp [CheckpointHistoryStore.retainedTicks, CheckpointHistoryStore.clear, hev]

theorem connect_history_max (s : MockState α) (gen : List (EntitySnapshot α))
    (now : ℚ) :
    (connect s gen now).history.max_ticks = s.history.max_ticks := by
  show ((s.history.clear).record_tick _).max_ticks = _
  rw [cs_record_tick_max]
  rfl

theorem connect_resets (s : MockState α) (gen : List (EntitySnapshot α))
    (now : ℚ) (hmax : 0 < s.history.max_ticks) :
    (connect s gen now).tick = 0 ∧ (connect s gen now).paused = false ∧
    (connect s gen now).history.retainedTicks = [0] := by
  refine ⟨rfl, rfl, ?_⟩
  show ((s.history.clear).record_tick _).retainedTicks = [0]
  rw [cs_clear_record_ticks _ _ (by
    show 0 < s.history.max_ticks
    exact hmax)]
  rfl

/-- C5: `connect → [commands and ticks] → disconnect → connect` leaves the
source in its initial state: `current_tick = 0`, the paused flag clear,
and the embedded history store containing exactly the initial tick (tick
0).  The history capacity must be positive (the mock default is 1000). -/
theorem reconnect_resets (s0 : MockState α) (gen1 gen2 : List (EntitySnapshot α))
    (now1 now2 : ℚ) (ops : List (MockOp α)) (hmax : 0 < s0.history.max_ticks) :
    (connect (disconnect (ops.foldl applyOp (connect s0 gen1 now1)))
        gen2 now2).tick = 0 ∧
    (connect (disconnect (ops.foldl applyOp (connect s0 gen1 now1)))
        gen2 now2).paused = false ∧
    (connect (disconnect (ops.foldl applyOp (connect s0 gen1 now1)))
        gen2 now2).history.retainedTicks = [0] := by
  apply connect_resets
  show 0 < (disconnect (ops.foldl applyOp (connect s0 gen1 now1))).history.max_ticks
  have hd : (disconnect (ops.foldl applyOp (connect s0 gen1 now1))).history =
      (ops.foldl applyOp (connect s0 gen1 now1)).history := rfl
  rw [hd, foldl_applyOp_history_max, connect_history_max]
  exact hmax

/-- Witness for C5: the default mock source, connected, paused, stepped
once, disconnected and reconnected. -/
theorem reconnect_resets_witness :
    let o : TickOracle Nat := ⟨id, 0, none, []⟩
    let ops : List (MockOp Nat) :=
      [MockOp.command Command.pause, MockOp.command (Command.step o),
        MockOp.loop o]
    0 < (MockState.init Nat).history.max_ticks ∧
    ((connect (disconnect (ops.foldl applyOp
        (connect (MockState.init Nat) [] 0))) [] 1).tick = 0 ∧
      (connect (disconnect (ops.foldl applyOp
        (connect (MockState.init Nat) [] 0))) [] 1).paused = false ∧
      (connect (disconnect (ops.foldl applyOp
        (connect (MockState.init Nat) [] 0))) [] 1).history.retainedTicks
        = [0]) := by
  intro o ops
  exact ⟨by decide,
    reconnect_resets (MockState.init Nat) [] [] 0 1 ops (by decide)⟩

/-- C6: `send_command("set_speed", ticks_per_second=v)` leaves the whole
state (in particular `tick_interval`) unchanged when v is non-positive,
non-numeric, or a boolean, and changes exactly `tick_interval`, to `1/v`,
when v is a positive non-boolean number. -/
theorem set_speed_validation (s : MockState α) (v : PyVal) :
    ((match v with
      | PyVal.int n => 0 < n
      | PyVal.float q => 0 < q
      | _ => False) →
      sendCommand s (Command.set_speed v) =
        { s with tick_interval := 1 / pyToRat v }) ∧
    (¬ (match v with
      | PyVal.int n => 0 < n
      | PyVal.float q => 0 < q
      | _ => False) →
      sendCommand s (Command.set_speed v) = s) := by
  constructor <;> intro h <;> rcases v with n | q | b | t | _ <;>
    simp_all [sendCommand, pyIsIntOrFloat, pyIsBool, pyToRat]

/-- Witness for C6: a positive float sets the interval; a boolean True
(which Python counts as an int) is rejected. -/
theorem set_speed_validation_witness :
    (0 < (2 : ℚ)) ∧
    (sendCommand (MockState.init Nat) (Command.set_speed (PyVal.float 2)) =
      { MockState.init Nat with tick_interval := 1 / pyToRat (PyVal.float 2) }) ∧
    (sendCommand (MockState.init Nat) (Command.set_speed (PyVal.bool true)) =
      MockState.init Nat) :=
  ⟨by norm_num,
    (set_speed_validation (MockState.init Nat) (PyVal.float 2)).1 (by norm_num),
    (set_speed_validation (MockState.init Nat) (PyVal.bool true)).2
      (fun h => h)⟩

/-- C7: `send_command("step")` increases `current_tick` by exactly one
when the paused flag is set, and leaves it unchanged when it is clear. -/
theorem step_advances_only_when_paused (s : MockState α) (o : TickOracle α) :
    (sendCommand s (Command.step o)).tick =
      (if s.paused then s.tick + 1 else s.tick) := by
  show (if s.paused then executeTick s o else s).tick = _
  by_cases hp : s.paused = true
  · rw [if_pos hp, if_pos hp, executeTick_tick]
  · rw [if_neg hp, if_neg hp]

/-- `MockWorldSource.get_snapshot` (`tick` optional; `now` is the wall
clock the live `_build_snapshot` would use): a historical snapshot when
the tick differs from the current one and the store retains it, the live
snapshot otherwise. -/
def mockGetSnapshot (s : MockState α) (now : ℚ) (tickArg : Option Nat) :
    WorldSnapshot α :=
  match tickArg with
  | some t =>
    if t ≠ s.tick then
      match s.history.get_snapshot t with
      | some h => h
      | none => buildSnapshot s now
    else buildSnapshot s now
  | none => buildSnapshot s now

/-- C9 counterexample: on a connected source holding one live entity and
an empty history, `get_snapshot 5` (5 differing from the current tick 0
and not retained) returns the live snapshot — which has an entity — not an
empty snapshot, contradicting the claim. -/
theorem get_snapshot_fallback_not_empty :
    let s : MockState Nat := { MockState.init Nat with
      connected := true, entities := [⟨1, []⟩] }
    ¬ ((mockGetSnapshot s 0 (some 5)).entities = []) := by
  intro s
  decide

/-- C9 amended: `get_snapshot(t)` returns the live snapshot when t is none
or equals the current tick, the retained historical snapshot when t
differs from the current tick and the history store retains it, and falls
back to the live snapshot — not an empty one — when t differs from the
current tick and is not retained. -/
theorem get_snapshot_dispatch (s : MockState α) (now : ℚ) :
    (mockGetSnapshot s now none = buildSnapshot s now) ∧
    (mockGetSnapshot s now (some s.tick) = buildSnapshot s now) ∧
    (∀ t, t ≠ s.tick → s.history.get_snapshot t = none →
      mockGetSnapshot s now (some t) = buildSnapshot s now) ∧
    (∀ t h, t ≠ s.tick → s.history.get_snapshot t = some h →
      mockGetSnapshot s now (some t) = h) := by
  refine ⟨rfl, ?_, ?_, ?_⟩
  · show (if s.tick ≠ s.tick then _ else buildSnapshot s now) = buildSnapshot s now
    rw [if_neg (by simp)]
  · intro t ht hn
    show (if t ≠ s.tick then _ else _) = buildSnapshot s now
    rw [if_pos ht, hn]
  · intro t h ht hs
    show (if t ≠ s.tick then _ else _) = h
    rw [if_pos ht, hs]

/-- Witness for C9's amended theorem: current tick 0 with history holding
only tick 0 — querying tick 0 directly would be live, and an elsewhere
tick 3 falls back to the live snapshot. -/
theorem get_snapshot_dispatch_witness :
    let s : MockState Nat := { MockState.init Nat with
      connected := true, tick := 1, entities := [⟨1, []⟩] }
    ((3 : Nat) ≠ s.tick) ∧ s.history.get_snapshot 3 = none ∧
    mockGetSnapshot s 0 (some 3) = buildSnapshot s 0 := by
  intro s
  exact ⟨by decide, by decide,
    (get_snapshot_dispatch s 0).2.2.1 3 (by decide) (by decide)⟩

end AgentEcsViz
